import Mathlib

/-!
Verification of the cblt edge server (request pipeline, file server,
range handling, redirects, host selection and the reverse-proxy backend
selector) against its natural-language specification.

Rust strings (`&str` / `String`) are modelled as `List Char`; byte
buffers written to sockets as `List Nat` (one `Nat` per byte, values
kept below 256 by construction for ASCII text).  `u64` arithmetic that
can wrap is made explicit with `% 2^64`.  Fallible Rust functions
returning `Result<_, CbltError>` become `Except CbltError _`.
-/

namespace Cblt

/-- Rust string slices are modelled as lists of characters. -/
abbrev Str := List Char

/-- Conversion from a Lean string literal to the model type. -/
def s2l (s : String) : Str := s.data

/-- Test that `pre` is a leading segment of `s` (Rust `str::starts_with`). -/
def strHasLead (s pre : Str) : Bool :=
  match pre, s with
  | [], _ => true
  | _ :: _, [] => false
  | p :: ps, c :: cs => c == p && strHasLead cs ps

/-- Test that `suf` is a trailing segment of `s` (Rust `str::ends_with`). -/
def strHasTail (s suf : Str) : Bool :=
  strHasLead s.reverse suf.reverse

/-- Test that `pat` occurs as a contiguous substring of `s` (Rust `str::contains`). -/
def strContains : Str → Str → Bool
  | [], pat => pat.isEmpty
  | c :: cs, pat => strHasLead (c :: cs) pat || strContains cs pat

/-- ASCII-lowercase a string, modelling case-insensitive HTTP header names. -/
def strLower (s : Str) : Str := s.map Char.toLower

/-- Split a string on a separator character (Rust `str::split`): adjacent
separators and separators at the ends produce empty fragments. -/
def splitChar (sep : Char) : Str → List Str
  | [] => [[]]
  | c :: cs =>
    if c == sep then
      [] :: splitChar sep cs
    else
      match splitChar sep cs with
      | [] => [[c]]
      | f :: fs => (c :: f) :: fs

/-- Strip every leading occurrence of `ch` (Rust `str::trim_start_matches(ch)`). -/
def trimLeadChar (ch : Char) : Str → Str
  | [] => []
  | c :: cs => if c == ch then trimLeadChar ch cs else c :: cs

/-- Numeric value of a list of decimal digits, most significant first. -/
def digitsToNat (s : Str) : Nat :=
  s.foldl (fun acc c => acc * 10 + (c.toNat - '0'.toNat)) 0

/-- The modulus of Rust `u64` arithmetic. -/
def U64MOD : Nat := 2 ^ 64

/-- Wrapping `u64` subtraction (`a.wrapping_sub(b)` for `a b < 2^64`), the
release-profile semantics of Rust's `-` operator.  In a debug build the same
subtraction panics on underflow. -/
def wsub (a b : Nat) : Nat := (a + U64MOD - b % U64MOD) % U64MOD

/-- Rust `str::parse::<u64>()`: an optional leading `+`, then at least one
decimal digit, and the value must fit in 64 bits. -/
def parseU64 (s : Str) : Option Nat :=
  let t := match s with
    | '+' :: rest => rest
    | _ => s
  if t ≠ [] ∧ t.all Char.isDigit then
    let v := digitsToNat t
    if v < U64MOD then some v else none
  else
    none

/-- Render a natural number in decimal (used for header values). -/
def natStr (n : Nat) : Str := (toString n).data

/-- Glob matcher from `src/main.rs` (`matches_pattern`): `"*"` matches
everything; a pattern ending in `*` matches any path that starts with the
pattern minus the trailing star; otherwise the pattern must equal the path. -/
def matches_pattern (pattern path : Str) : Bool :=
  if pattern = ['*'] then
    true
  else if strHasTail pattern ['*'] then
    strHasLead path pattern.dropLast
  else
    pattern == path

/-! ### Error type (`src/error.rs`)

Only the variants the request pipeline constructs are modelled; status
codes are plain `Nat` (their `u16` value). -/

inductive CbltError where
  | requestError (details : Str) (statusCode : Nat)
  | directiveNotMatched
  | responseError (details : Str) (statusCode : Nat)
  | heaplessError
deriving DecidableEq, Repr

/-! ### Filesystem paths (`std::path` as used by `src/file_server.rs`)

A `PathBuf` on a Unix platform is an optional leading root plus a list of
components; `Component::Prefix` does not occur on Unix, so a path is
modelled as an absoluteness flag plus the list of component strings. -/

/-- One component of a request path, as produced by `Path::components()`. -/
inductive PComp where
  | rootDir
  | curDir
  | parentDir
  | normal (seg : Str)
deriving DecidableEq, Repr

/-- A filesystem path: whether it is absolute, plus its components in order. -/
structure RPath where
  isAbs : Bool
  comps : List Str
deriving DecidableEq, Repr

/-- Classify a slash-free fragment of a path.  Empty fragments (from `//` or
edge slashes) are skipped, `.` is `CurDir` and `..` is `ParentDir`.
`Path::components()` drops a lone `.` that is not the first component; since
the sanitizer treats `CurDir` as a no-op this difference is unobservable. -/
def segToComp (seg : Str) : Option PComp :=
  if seg = [] then none
  else if seg = ['.'] then some .curDir
  else if seg = ['.', '.'] then some .parentDir
  else some (.normal seg)

/-- Components of a path string in the sense of `Path::components()` on Unix:
a leading `/` yields `RootDir`, then the non-empty slash-separated fragments. -/
def pathComponents (s : Str) : List PComp :=
  let comps := (splitChar '/' s).filterMap segToComp
  if strHasLead s ['/'] then .rootDir :: comps else comps

/-- Parse a configured path string (the `Root` directive's directory) into an
`RPath`; `.` and `..` fragments of the configured base stay as literal
component strings, as they do in the `PathBuf` the code builds. -/
def parseRPath (s : Str) : RPath :=
  { isAbs := strHasLead s ['/'],
    comps := (splitChar '/' s).filter (fun f => f ≠ []) }

/-- `PathBuf::push` with a plain (relative, slash-free) segment: append it. -/
def rpPush (p : RPath) (seg : Str) : RPath :=
  { p with comps := p.comps ++ [seg] }

/-- `PathBuf::pop`: drop the last component; returns `none` (Rust `false`)
when there is nothing to pop (the path is empty or a bare root). -/
def rpPop (p : RPath) : Option RPath :=
  match p.comps with
  | [] => none
  | _ :: _ => some { p with comps := p.comps.dropLast }

/-- `Path::starts_with`: component-wise comparison — `base` must match an
initial run of `p`'s components, and absoluteness must agree. -/
def rpHasLead (p base : RPath) : Bool :=
  p.isAbs == base.isAbs && base.comps.isPrefixOf p.comps

/-- Loop body of `sanitize_path` (`src/file_server.rs`): walk the request
components, pushing normal segments, rejecting absolute segments, and popping
on `..` (failing when nothing can be popped). -/
def sanitizeLoop : RPath → List PComp → Option RPath
  | full, [] => some full
  | full, c :: rest =>
    match c with
    | .normal seg => sanitizeLoop (rpPush full seg) rest
    | .rootDir => none
    | .parentDir =>
      match rpPop full with
      | none => none
      | some f => sanitizeLoop f rest
    | .curDir => sanitizeLoop full rest

/-- `sanitize_path` from `src/file_server.rs`: resolve `requestedPath`
against `basePath`; the result must still start with `basePath`. -/
def sanitize_path (basePath : RPath) (requestedPath : Str) : Option RPath :=
  match sanitizeLoop basePath (pathComponents requestedPath) with
  | none => none
  | some full => if rpHasLead full basePath then some full else none

/-! ### Range header parsing (`src/request.rs`) -/

/-- A segment a sanitized path may gain beyond its base: non-empty and
neither `.` nor `..`. -/
def goodSeg (seg : Str) : Prop :=
  seg ≠ [] ∧ seg ≠ ['.'] ∧ seg ≠ ['.', '.']

instance (seg : Str) : Decidable (goodSeg seg) := by
  unfold goodSeg; infer_instance

/-- `parse_range_header` from `src/request.rs`.  The `(None, Some e)` arm
computes `file_size - e` with no check that `e ≤ file_size`; the Rust `u64`
subtraction is reproduced here with release-profile wrapping semantics
(`wsub`) — in a debug build that subtraction panics on underflow. -/
def parse_range_header (rangeHeader : Str) (fileSize : Nat) :
    Except CbltError (Nat × Nat) :=
  if ¬ strHasLead rangeHeader (s2l "bytes=") then
    .error (.responseError (s2l "Invalid Range header") 400)
  else
    let rangeValues := rangeHeader.drop 6
    let parts := splitChar '-' rangeValues
    if parts.length ≠ 2 then
      .error (.responseError (s2l "Invalid Range header format") 400)
    else
      let start? := parseU64 (parts.getD 0 [])
      let end? := parseU64 (parts.getD 1 [])
      match start?, end? with
      | some s, some e =>
        if s ≤ e ∧ e < fileSize then .ok (s, e)
        else .error (.responseError (s2l "Invalid Range header values") 416)
      | some s, none =>
        if s < fileSize then .ok (s, fileSize - 1)
        else .error (.responseError (s2l "Invalid Range header values") 416)
      | none, some e =>
        if e ≠ 0 then .ok (wsub fileSize e, fileSize - 1)
        else .error (.responseError (s2l "Invalid Range header values") 416)
      | none, none =>
        .error (.responseError (s2l "Invalid Range header values") 416)

/-! ### Requests and responses (`src/request.rs`, `src/response.rs`)

A parsed request keeps its method, raw request target, header list and
body.  The `http` crate normalizes header names to lowercase when a
request or response is built, and header lookup is case-insensitive;
responses constructed by the code therefore carry lowercase names. -/

/-- A parsed HTTP request (`http::Request<BytesMut>`). -/
structure RequestM where
  method : Str
  target : Str
  headers : List (Str × Str)
  body : List Nat
deriving DecidableEq, Repr

/-- Case-insensitive header lookup (`HeaderMap::get`). -/
def headerGet (req : RequestM) (name : Str) : Option Str :=
  (req.headers.find? (fun kv => strLower kv.1 == strLower name)).map (·.2)

/-- `http::Uri::path()` for an origin-form request target: the part before
any query (or fragment) delimiter. -/
def uriPath (req : RequestM) : Str :=
  req.target.takeWhile (fun c => c ≠ '?' ∧ c ≠ '#')

/-- A buffered response (`http::Response<BytesMut>`), written in one piece. -/
structure ResponseB where
  status : Nat
  headers : List (Str × Str)
  body : List Nat
deriving DecidableEq, Repr

/-- A file response (`http::Response<File>`); `body` is the byte content the
file handle will yield from its current seek position to end of file. -/
structure ResponseF where
  status : Nat
  headers : List (Str × Str)
  body : List Nat
deriving DecidableEq, Repr

/-- Encode ASCII text as wire bytes. -/
def strBytes (s : Str) : List Nat := s.map Char.toNat

/-- `StatusCode::canonical_reason` for the codes the pipeline emits. -/
def canonicalReason (status : Nat) : Str :=
  if status = 200 then s2l "OK"
  else if status = 206 then s2l "Partial Content"
  else if status = 302 then s2l "Found"
  else if status = 400 then s2l "Bad Request"
  else if status = 403 then s2l "Forbidden"
  else if status = 404 then s2l "Not Found"
  else if status = 416 then s2l "Range Not Satisfiable"
  else if status = 500 then s2l "Internal Server Error"
  else if status = 502 then s2l "Bad Gateway"
  else []

/-- Wire form of one header line `name: value\r\n`. -/
def headerLineBytes (kv : Str × Str) : List Nat :=
  strBytes kv.1 ++ strBytes (s2l ": ") ++ strBytes kv.2 ++ strBytes (s2l "\r\n")

/-- Status line and header block of a response, up to and including the blank
line that closes the headers (what `send_response_file` writes before the
body). -/
def respWireHead (status : Nat) (headers : List (Str × Str)) : List Nat :=
  strBytes (s2l "HTTP/1.1 ") ++ strBytes (natStr status) ++ strBytes (s2l " ")
    ++ strBytes (canonicalReason status) ++ strBytes (s2l "\r\n")
    ++ (headers.map headerLineBytes).flatten
    ++ strBytes (s2l "\r\n")

/-- External collaborators of the file-serving path: the filesystem (is a
path a directory; the byte content of the file at a path, if it opens), the
`mime_guess` lookup, and the gzip encoder of `async_compression`. -/
structure Env where
  isDir : RPath → Bool
  readFile : RPath → Option (List Nat)
  mime : RPath → Str
  gzip : List Nat → List Nat

/-- `gzip_support_detect` from `src/response.rs`: the request's
`Accept-Encoding` value contains the substring `gzip`. -/
def gzip_support_detect (req : RequestM) : Bool :=
  match headerGet req (s2l "accept-encoding") with
  | some v => strContains v (s2l "gzip")
  | none => false

/-- `send_response_file` from `src/response.rs`: write the status line, the
response's headers unchanged, the blank line, then stream the body — through
the gzip encoder when the client advertised gzip.  The two lines that would
write a `Content-Encoding: gzip` header are commented out in the source, so
no such header is ever added.  Returns the bytes written to the socket. -/
def send_response_file (env : Env) (req : RequestM) (resp : ResponseF) : List Nat :=
  respWireHead resp.status resp.headers
    ++ (if gzip_support_detect req then env.gzip resp.body else resp.body)

/-- `send_response` from `src/response.rs`: buffered write of status line,
headers, blank line and body. -/
def send_response (resp : ResponseB) : List Nat :=
  respWireHead resp.status resp.headers ++ resp.body

/-- `error_response` from `src/response.rs`: a canned body, no headers. -/
def error_response (status : Nat) : ResponseB :=
  let msg :=
    if status = 400 then s2l "Bad request"
    else if status = 403 then s2l "Forbidden"
    else if status = 404 then s2l "Not found"
    else if status = 405 then s2l "Method not allowed"
    else if status = 500 then s2l "Internal server error"
    else if status = 502 then s2l "Bad gateway"
    else s2l "Unknown error"
  { status := status, headers := [], body := strBytes msg }

/-! ### File server (`src/file_server.rs`) -/

/-- `file_response`: a `200 OK` with `Content-Length` and a guessed
`Content-Type`, body the whole file. -/
def file_response (env : Env) (filePath : RPath) (file : List Nat)
    (contentLength : Nat) : ResponseF :=
  { status := 200,
    headers := [(s2l "content-length", natStr contentLength),
                (s2l "content-type", env.mime filePath)],
    body := file }

/-- `ranged_file_response` from `src/response.rs`: seek the file to `start`
(the body is everything from `start` to end of file — the code never limits
the stream to the requested window), compute `Content-Length` as
`end - start + 1` (wrapping `u64` arithmetic) and build the `Content-Range`
string in a 200-byte `heapless::String`, failing with `HeaplessError` if it
does not fit. -/
def ranged_file_response (env : Env) (file : List Nat) (filePath : RPath)
    (fileSize : Nat) (range : Nat × Nat) : Except CbltError ResponseF :=
  let start := range.1
  let stop := range.2
  let contentLength := (wsub stop start + 1) % U64MOD
  let contentRange := s2l "bytes " ++ natStr start ++ s2l "-" ++ natStr stop
    ++ s2l "/" ++ natStr fileSize
  if contentRange.length > 200 then
    .error .heaplessError
  else
    .ok { status := 206,
          headers := [(s2l "content-length", natStr contentLength),
                      (s2l "content-range", contentRange),
                      (s2l "content-type", env.mime filePath)],
          body := file.drop start }

/-- `Path::join` with a relative fragment: append its slash-separated
segments literally (no normalization). -/
def rpJoin (p : RPath) (rel : Str) : RPath :=
  { p with comps := p.comps ++ (splitChar '/' rel).filter (fun f => f ≠ []) }

/-- Serve an opened file (the tail of `file_directive` after the open
succeeded): honour a `Range` header with a `206`, otherwise a plain `200`.
Returns the status code the Rust function returns together with the bytes
written to the socket. -/
def serveFile (env : Env) (req : RequestM) (finalPath : RPath)
    (file : List Nat) : Except CbltError (Nat × List Nat) :=
  let contentLength := file.length
  match headerGet req (s2l "range") with
  | some rangeStr =>
    match parse_range_header rangeStr contentLength with
    | .error e => .error e
    | .ok range =>
      match ranged_file_response env file finalPath contentLength range with
      | .error e => .error e
      | .ok resp => .ok (206, send_response_file env req resp)
  | none =>
    .ok (200, send_response_file env req (file_response env finalPath file contentLength))

/-- `file_directive` from `src/file_server.rs`: sanitize the request path
under the configured root, append `index.html` for directories, open the
file (falling back to `<root>/<fallback>` and then to `404 Not Found`), and
serve it.  A missing root is a `500`; a path rejected by the sanitizer is
`DirectiveNotMatched`. -/
def file_directive (env : Env) (rootPath : Option Str) (fallbackFile : Option Str)
    (req : RequestM) : Except CbltError (Nat × List Nat) :=
  match rootPath with
  | none => .error (.responseError [] 500)
  | some root =>
    match sanitize_path (parseRPath root) (trimLeadChar '/' (uriPath req)) with
    | none => .error .directiveNotMatched
    | some filePath0 =>
      let filePath := if env.isDir filePath0 then rpPush filePath0 (s2l "index.html")
                      else filePath0
      match env.readFile filePath with
      | some file => serveFile env req filePath file
      | none =>
        match fallbackFile with
        | some fallback =>
          let fallbackPath := rpJoin (parseRPath root) (trimLeadChar '/' fallback)
          match env.readFile fallbackPath with
          | some file => serveFile env req fallbackPath file
          | none =>
            .error (.responseError (s2l "Neither requested file nor fallback file found") 404)
        | none => .error (.responseError (s2l "File not found") 404)

/-! ### Configuration (`src/config.rs`) -/

/-- Load-balancing policy. -/
inductive LoadBalancePolicy where
  | roundRobin
  | ipHash
deriving DecidableEq, Repr

/-- Reverse-proxy options (`ReverseProxyOptions`). -/
structure ReverseProxyOptions where
  lbRetries : Nat
  lbInterval : Nat
  lbTimeout : Nat
  lbPolicy : Option LoadBalancePolicy
deriving DecidableEq, Repr

/-- Configured directive variants (`config::Directive`). -/
inductive Directive where
  | root (pattern path : Str) (fallback : Option Str)
  | fileServer
  | reverseProxy (pattern : Str) (destinations : List Str) (options : ReverseProxyOptions)
  | redir (destination : Str)
  | redirIfNotCookie (cookiename destination : Str)
  | tls (cert key : Str)
deriving DecidableEq, Repr

/-! ### Reverse-proxy backend selection (`src/reverse_proxy.rs`) -/

/-- Liveness state of one backend (`AliveState`). -/
inductive AliveState where
  | alive (ts : Nat)
  | dead (since : Nat) (retriesLeft : Nat)
deriving DecidableEq, Repr

/-- One upstream backend (`Backend`); the `RwLock` around `alive_state` is
modelled by threading the updated backend list through the selection call. -/
structure Backend where
  url : Str
  aliveState : AliveState
deriving DecidableEq, Repr

/-- The chosen backend handed back to the dispatcher (`LiveBackend`). -/
structure LiveBackend where
  address : Str
  backendIndex : Nat
deriving DecidableEq, Repr

/-- Per-pattern reverse-proxy state (`ReverseProxyState`). -/
structure ReverseProxyState where
  backends : List Backend
  lbPolicy : LoadBalancePolicy
  currentBackend : Nat
  options : ReverseProxyOptions

/-- A client socket address: an IPv4 address's four octets, or IPv6. -/
inductive IpAddr where
  | v4 (o1 o2 o3 o4 : Nat)
  | v6
deriving DecidableEq, Repr

/-- FNV-1a offset basis. -/
def FNV_OFFSET_BASIS : Nat := 0xcbf29ce484222325

/-- FNV-1a prime. -/
def FNV_PRIME : Nat := 0x100000001b3

/-- One FNV-1a round: xor in a byte, then wrapping-multiply by the prime. -/
def fnvStep (hash byte : Nat) : Nat := ((hash ^^^ byte) * FNV_PRIME) % U64MOD

/-- `generate_number_from_octet`: FNV-1a over the four octets, reduced
modulo `max`.  (With `max = 0` the Rust code panics; Lean's `% 0` is the
identity — every use below has a non-empty backend list.) -/
def generate_number_from_octet (o1 o2 o3 o4 max : Nat) : Nat :=
  fnvStep (fnvStep (fnvStep (fnvStep FNV_OFFSET_BASIS o1) o2) o3) o4 % max

/-- `heapless::String<cap>::from_str`: fails when the text exceeds the
capacity. -/
def heaplessOf (cap : Nat) (s : Str) : Except CbltError Str :=
  if s.length ≤ cap then .ok s else .error .heaplessError

/-- The scan shared by both arms of `get_next_backend`: up to `fuel`
(`total_backends`) iterations starting at index `idx`.  An `Alive` backend
is picked as is; a `Dead` one is picked — and revived to `Alive(now)`, its
`retries_left` decrement being immediately overwritten by the revival — when
`now > since + interval` strictly and `retries_left > 0`; a `Dead` backend
past the interval with no retries left only has its `since` reset (its
`retries_left` stays `0`).  The cursor advances by one modulo the list
length at every step, including a pick (the `IPHash` arm discards the final
cursor; the `RoundRobin` arm persists it).  Returns the picked `(url,
index)` if any, the updated backend list, and the final cursor.  The
out-of-range read `self.backends[*idx]` would panic in Rust; here it ends
the scan (all uses keep `idx` below the length). -/
def scanLoop (now interval : Nat) :
    Nat → List Backend → Nat → Option (Str × Nat) × List Backend × Nat
  | 0, bs, idx => (none, bs, idx)
  | fuel + 1, bs, idx =>
    let n := bs.length
    match bs[idx]? with
    | none => (none, bs, idx)
    | some b =>
      match b.aliveState with
      | .alive _ => (some (b.url, idx), bs, (idx + 1) % n)
      | .dead since retriesLeft =>
        if now > since + interval then
          if retriesLeft > 0 then
            (some (b.url, idx), bs.set idx { b with aliveState := .alive now },
              (idx + 1) % n)
          else
            scanLoop now interval fuel
              (bs.set idx { b with aliveState := .dead now retriesLeft })
              ((idx + 1) % n)
        else
          scanLoop now interval fuel bs ((idx + 1) % n)

/-- `ReverseProxyState::get_next_backend`.  `now` stands for the
`current_timestamp_seconds()` reads (one logical instant per call).  The
`heapless` capacity check on the picked url is applied after the scan; on
the (url longer than 100 bytes) error path the Rust code would likewise
already have performed the state updates made before building
`LiveBackend`. -/
def getNextBackend (st : ReverseProxyState) (addr : IpAddr) (now : Nat) :
    Except CbltError LiveBackend × ReverseProxyState :=
  match st.lbPolicy with
  | .roundRobin =>
    match scanLoop now st.options.lbInterval st.backends.length st.backends
        st.currentBackend with
    | (some (url, j), bs, cursor) =>
      match heaplessOf 100 url with
      | .ok a => (.ok ⟨a, j⟩, { st with backends := bs, currentBackend := cursor })
      | .error e => (.error e, { st with backends := bs, currentBackend := cursor })
    | (none, bs, cursor) =>
      (.error (.responseError (s2l "No healthy backends") 502),
        { st with backends := bs, currentBackend := cursor })
  | .ipHash =>
    match addr with
    | .v6 => (.error (.responseError (s2l "IPv6 not supported") 502), st)
    | .v4 o1 o2 o3 o4 =>
      let start := generate_number_from_octet o1 o2 o3 o4 st.backends.length
      match scanLoop now st.options.lbInterval st.backends.length st.backends start with
      | (some (url, j), bs, _) =>
        match heaplessOf 100 url with
        | .ok a => (.ok ⟨a, j⟩, { st with backends := bs })
        | .error e => (.error e, { st with backends := bs })
      | (none, bs, _) =>
        (.error (.responseError (s2l "No healthy backends") 502),
          { st with backends := bs })

/-! ### Directive pipeline (`src/directive.rs`)

The walk writes responses to the client socket and finally returns
`Result<(), CbltError>`; socket writes are modelled as always succeeding
(write failures only change logging and the returned error).  The outcome
of `reverse_proxy::proxy_directive` depends on live upstream sockets, so
the walk takes it as an oracle `proxy : Directive → Except CbltError Nat`
(its successful status, or its error); its own socket writes are not
tracked. -/

/-- Per-host configuration handed to the walk (`HostDetails`): its directive
list (the proxy states are folded into the proxy oracle). -/
structure HostCfg where
  directives : List Directive
deriving DecidableEq, Repr

deriving instance DecidableEq for Except

/-- Outcome of `directive_process`: the responses written to the client, in
order, and the function's return value. -/
structure ProcOut where
  sent : List (List Nat)
  result : Except CbltError Unit
deriving DecidableEq, Repr

/-- Recursion core of `replaceAll`, structurally recursive on a fuel bound
(each step consumes at least one character of `s` when `pat` is non-empty,
so `fuel = s.length` reproduces the unbounded scan). -/
def replaceAllGo (pat rep : Str) : Nat → Str → Str
  | _, [] => []
  | 0, s => s
  | fuel + 1, c :: rest =>
    if pat ≠ [] ∧ strHasLead (c :: rest) pat then
      rep ++ replaceAllGo pat rep fuel ((c :: rest).drop pat.length)
    else
      c :: replaceAllGo pat rep fuel rest

/-- String replacement (`str::replace`): replace every non-overlapping
occurrence of `pat` left to right.  The pipeline only ever replaces the
non-empty pattern `"{uri}"`. -/
def replaceAll (s pat rep : Str) : Str :=
  replaceAllGo pat rep s.length s

/-- The `302 Found` redirect response built by the `Redir` and
`RedirIfNotCookie` arms: `Location` is the destination with `{uri}`
replaced by the request path, and the body is empty. -/
def redirResponse (destination : Str) (req : RequestM) : ResponseB :=
  { status := 302,
    headers := [(s2l "location", replaceAll destination (s2l "{uri}") (uriPath req))],
    body := [] }

/-- The directive walk of `directive_process`: evaluate directives in order,
carrying the root path and fallback file set by matching `Root` entries.
`FileServer` is terminal in every case (on `DirectiveNotMatched` it breaks
out of the walk, which then emits the trailing `404`); `ReverseProxy` falls
through only on `DirectiveNotMatched`; `Redir` always terminates;
`RedirIfNotCookie` terminates unless a `Cookie` fragment contains the
cookie name; `Tls` is skipped. -/
def walkDirectives (env : Env) (proxy : Directive → Except CbltError Nat)
    (req : RequestM) :
    List Directive → Option Str → Option Str → ProcOut
  | [], _, _ => { sent := [send_response (error_response 404)], result := .ok () }
  | d :: rest, rootPath, fallbackFile =>
    match d with
    | .root pattern path fallback =>
      if matches_pattern pattern (uriPath req) then
        walkDirectives env proxy req rest (some path) fallback
      else
        walkDirectives env proxy req rest rootPath fallbackFile
    | .fileServer =>
      match file_directive env rootPath fallbackFile req with
      | .ok (_, wire) => { sent := [wire], result := .ok () }
      | .error (.responseError _ statusCode) =>
        { sent := [send_response (error_response statusCode)], result := .ok () }
      | .error .directiveNotMatched =>
        { sent := [send_response (error_response 404)], result := .ok () }
      | .error e => { sent := [], result := .error e }
    | .reverseProxy _ _ _ =>
      match proxy d with
      | .ok _ => { sent := [], result := .ok () }
      | .error .directiveNotMatched =>
        walkDirectives env proxy req rest rootPath fallbackFile
      | .error (.responseError _ statusCode) =>
        { sent := [send_response (error_response statusCode)], result := .ok () }
      | .error e => { sent := [], result := .error e }
    | .redir destination =>
      { sent := [send_response (redirResponse destination req)], result := .ok () }
    | .redirIfNotCookie cookiename destination =>
      let cookies := (headerGet req (s2l "cookie")).getD []
      match (splitChar ';' cookies).find? (fun x => strContains x cookiename) with
      | some _ => walkDirectives env proxy req rest rootPath fallbackFile
      | none =>
        { sent := [send_response (redirResponse destination req)], result := .ok () }
    | .tls _ _ => walkDirectives env proxy req rest rootPath fallbackFile

/-- Virtual-host table of one port worker (`ServerSettings::hosts`), as an
association list in the hash map's iteration order. -/
def SettingsMap := List (Str × HostCfg)

/-- The wildcard scan of `directive_process`:
`settings.hosts.iter().find(|(k, _)| k.starts_with("*"))`. -/
def findWild (settings : SettingsMap) : Option (Str × HostCfg) :=
  settings.find? (fun kv => strHasLead kv.1 ['*'])

/-- Exact host lookup (`settings.hosts.get(host)`). -/
def hostsGet (settings : SettingsMap) (host : Str) : Option HostCfg :=
  (settings.find? (fun kv => kv.1 == host)).map (·.2)

/-- The `Host` header value the pipeline uses: missing header becomes `""`. -/
def hostOf (req : RequestM) : Str :=
  (headerGet req (s2l "Host")).getD []

/-- `directive_process` from `src/directive.rs`, after the request has been
parsed: select the virtual host — any configured key starting with `*` wins
for every request, otherwise the exact `Host` value is looked up, and a miss
sends `403 Forbidden` and returns the error — then walk its directives. -/
def directive_process (env : Env) (proxy : Directive → Except CbltError Nat)
    (settings : SettingsMap) (req : RequestM) : ProcOut :=
  match findWild settings with
  | some (_, cfg) => walkDirectives env proxy req cfg.directives none none
  | none =>
    match hostsGet settings (hostOf req) with
    | some cfg => walkDirectives env proxy req cfg.directives none none
    | none =>
      { sent := [send_response (error_response 403)],
        result := .error (.responseError (s2l "Forbidden") 403) }

/-! ### Derived predicates and concrete fixtures used by the theorems -/

/-- Whether a backend's state is `Alive`. -/
def isAliveB (b : Backend) : Bool :=
  match b.aliveState with
  | .alive _ => true
  | .dead _ _ => false

/-- The condition under which one scan step picks a backend: `Alive`, or
`Dead` with `now` strictly past `since + interval` and retries remaining. -/
def pickEligible (now interval : Nat) (b : Backend) : Bool :=
  match b.aliveState with
  | .alive _ => true
  | .dead since retriesLeft =>
    decide (since + interval < now) && decide (0 < retriesLeft)

/-- Leading-run test on byte lists. -/
def bytesHasLead (s pre : List Nat) : Bool :=
  match pre, s with
  | [], _ => true
  | _ :: _, [] => false
  | p :: ps, c :: cs => c == p && bytesHasLead cs ps

/-- Contiguous-substring test on byte lists. -/
def bytesContains : List Nat → List Nat → Bool
  | [], pat => pat.isEmpty
  | c :: cs, pat => bytesHasLead (c :: cs) pat || bytesContains cs pat

/-- An environment with trivial filesystem and a given gzip encoder. -/
def envOf (gz : List Nat → List Nat) : Env :=
  { isDir := fun _ => false, readFile := fun _ => none,
    mime := fun _ => [], gzip := gz }

/-- The 100-byte file of spec scenario E6: bytes `0x00 .. 0x63`. -/
def fileE6 : List Nat := List.range 100

/-- The E6 request: `GET /file.bin` with `Range: bytes=10-19`. -/
def reqE6 : RequestM :=
  { method := s2l "GET", target := s2l "/file.bin",
    headers := [(s2l "range", s2l "bytes=10-19")], body := [] }

/-- Environment for E6: `/www/file.bin` holds `fileE6`; gzip unused. -/
def envE6 : Env :=
  { isDir := fun _ => false,
    readFile := fun p =>
      if p = ⟨true, [s2l "www", s2l "file.bin"]⟩ then some fileE6 else none,
    mime := fun _ => s2l "application/octet-stream",
    gzip := fun b => b }

/-- The sanitized path of the E6 request under root `/www`. -/
def pathE6 : RPath := ⟨true, [s2l "www", s2l "file.bin"]⟩

/-- A request advertising `Accept-Encoding: gzip`. -/
def reqGz : RequestM :=
  { method := s2l "GET", target := s2l "/index.html",
    headers := [(s2l "accept-encoding", s2l "gzip")], body := [] }

/-- A plain `200 OK` file response with a three-byte body. -/
def resp200 : ResponseF :=
  { status := 200,
    headers := [(s2l "content-length", natStr 3),
                (s2l "content-type", s2l "text/html")],
    body := [104, 105, 10] }

/-- Reverse-proxy state whose single backend died at `0` with 2 retries
left, under a 60-second interval. -/
def stC5 : ReverseProxyState :=
  { backends := [⟨s2l "b1", .dead 0 2⟩], lbPolicy := .roundRobin,
    currentBackend := 0,
    options := ⟨2, 60, 1, some .roundRobin⟩ }

/-- Reverse-proxy state whose single backend is permanently dead
(`retries_left = 0`), under a 5-second interval and `lb_retries = 2`. -/
def stC6 : ReverseProxyState :=
  { backends := [⟨s2l "b1", .dead 0 0⟩], lbPolicy := .roundRobin,
    currentBackend := 0,
    options := ⟨2, 5, 1, some .roundRobin⟩ }

/-- Reverse-proxy state with one alive backend. -/
def stW : ReverseProxyState :=
  { backends := [⟨s2l "b1", .alive 0⟩], lbPolicy := .roundRobin,
    currentBackend := 0,
    options := ⟨2, 60, 1, some .roundRobin⟩ }

/-- A host table with a single exact key `example.com`. -/
def settingsExact : SettingsMap :=
  [(s2l "example.com", ⟨[.redir (s2l "https://example.com{uri}")]⟩)]

/-- The E3 request: `GET /foo?bar` with `Host: example.com`. -/
def reqE3 : RequestM :=
  { method := s2l "GET", target := s2l "/foo?bar",
    headers := [(s2l "host", s2l "example.com")], body := [] }

/-- A request whose `Host` is not configured in `settingsExact`. -/
def reqBadHost : RequestM :=
  { method := s2l "GET", target := s2l "/",
    headers := [(s2l "host", s2l "other.com")], body := [] }

/-- A request whose path needs sanitizing: `GET /a/../b.txt`. -/
def reqW : RequestM :=
  { method := s2l "GET", target := s2l "/a/../b.txt", headers := [], body := [] }

/-- The sanitized path of `reqW` under root `/www`. -/
def qW : RPath := ⟨true, [s2l "www", s2l "b.txt"]⟩

/-! ## Theorems -/

/-- A string has any of its own leading runs as a leading run. -/
theorem strHasLead_of_append : ∀ (pre t : Str), strHasLead (pre ++ t) pre = true
  | [], _ => by simp [strHasLead]
  | c :: pre, t => by
    simp [strHasLead, strHasLead_of_append pre t]

/-- Every list has its `dropLast` as a leading run. -/
theorem strHasLead_dropLast : ∀ l : Str, strHasLead l l.dropLast = true
  | [] => rfl
  | [_] => by simp [strHasLead, List.dropLast]
  | c :: d :: rest => by
    simp only [List.dropLast_cons₂, strHasLead, beq_self_eq_true, Bool.true_and]
    exact strHasLead_dropLast (d :: rest)

/-- A string with a non-empty trailing run is non-empty. -/
theorem strHasTail_ne_nil {p : Str} (h : strHasTail p ['*'] = true) : p ≠ [] := by
  intro hnil
  subst hnil
  simp [strHasTail, strHasLead] at h

/-- C7: `matches_pattern` returns `true` exactly when the pattern is `"*"`,
or the pattern ends in `*` and the path starts with the pattern minus the
trailing star, or the pattern equals the path — the three rules of
`src/main.rs`, and no other form of matching. -/
theorem matches_pattern_spec (p s : Str) :
    matches_pattern p s = true ↔
      (p = ['*'] ∨
       (strHasTail p ['*'] = true ∧ strHasLead s p.dropLast = true) ∨
       p = s) := by
  unfold matches_pattern
  by_cases h1 : p = ['*']
  · simp [h1]
  · rw [if_neg h1]
    by_cases h2 : strHasTail p ['*'] = true
    · rw [if_pos h2]
      constructor
      · intro hlead
        exact Or.inr (Or.inl ⟨h2, hlead⟩)
      · rintro (h | ⟨_, hlead⟩ | rfl)
        · exact absurd h h1
        · exact hlead
        · exact strHasLead_dropLast p
    · rw [if_neg h2]
      constructor
      · intro hbeq
        exact Or.inr (Or.inr (eq_of_beq hbeq))
      · rintro (h | ⟨ht, _⟩ | rfl)
        · exact absurd h h1
        · exact absurd ht h2
        · exact beq_self_eq_true p

/-- Witness for C7 at a concrete pattern and path. -/
theorem matches_pattern_spec_witness :
    matches_pattern (s2l "/api/*") (s2l "/api/users") = true :=
  (matches_pattern_spec (s2l "/api/*") (s2l "/api/users")).mpr
    (Or.inr (Or.inl ⟨by decide, by decide⟩))

/-- Boolean list containment via `isPrefixOf` agrees with the existence of a
trailing remainder. -/
theorem isPrefixOf_iff_append :
    ∀ (a b : List Str), a.isPrefixOf b = true ↔ ∃ t, b = a ++ t
  | [], b => by simp [List.isPrefixOf]
  | x :: xs, [] => by simp [List.isPrefixOf]
  | x :: xs, y :: ys => by
    simp only [List.isPrefixOf, Bool.and_eq_true, beq_iff_eq,
      isPrefixOf_iff_append xs ys, List.cons_append, List.cons.injEq]
    constructor
    · rintro ⟨rfl, t, rfl⟩
      exact ⟨t, rfl, rfl⟩
    · rintro ⟨t, rfl, rfl⟩
      exact ⟨rfl, t, rfl⟩

/-- A `normal` component produced by `segToComp` carries the original,
well-formed segment. -/
theorem segToComp_eq_normal {seg s : Str} (h : segToComp seg = some (.normal s)) :
    s = seg ∧ goodSeg seg := by
  unfold segToComp at h
  split_ifs at h with h1 h2 h3
  · cases h
  · cases h
  · injection h with h
    injection h with h
    exact ⟨h.symm, h1, h2, h3⟩

/-- Every `normal` component of a parsed request path is a well-formed
segment. -/
theorem pathComponents_normal_good {p s : Str}
    (h : PComp.normal s ∈ pathComponents p) : goodSeg s := by
  unfold pathComponents at h
  have hmem : PComp.normal s ∈ (splitChar '/' p).filterMap segToComp := by
    by_cases hs : strHasLead p ['/'] = true
    · rw [if_pos hs] at h
      rcases List.mem_cons.mp h with h0 | h0
      · cases h0
      · exact h0
    · rwa [if_neg hs] at h
  obtain ⟨seg, _, hseg⟩ := List.mem_filterMap.mp hmem
  obtain ⟨rfl, hgood⟩ := segToComp_eq_normal hseg
  exact hgood

/-- `PathBuf::pop` on an empty relative path or a bare root fails. -/
theorem rpPop_nil (flag : Bool) : rpPop ⟨flag, []⟩ = none := rfl

/-- `PathBuf::pop` on a path with components drops the last one. -/
theorem rpPop_nonempty (flag : Bool) (l : List Str) (h : l ≠ []) :
    rpPop ⟨flag, l⟩ = some ⟨flag, l.dropLast⟩ := by
  cases l with
  | nil => exact absurd rfl h
  | cons x xs => rfl

/-- Invariant of the `sanitize_path` loop: starting from a base split as
`basePfx ++ pushed` with every pushed segment well formed, a successful walk
ends in a path made of a leading run of `basePfx` followed by well-formed
segments only. -/
theorem sanitizeLoop_shape :
    ∀ (comps : List PComp) (flag : Bool) (basePfx pushed : List Str) (q : RPath),
      (∀ s, PComp.normal s ∈ comps → goodSeg s) →
      (∀ s ∈ pushed, goodSeg s) →
      sanitizeLoop ⟨flag, basePfx ++ pushed⟩ comps = some q →
      q.isAbs = flag ∧
      ∃ basePfx2 pushed2,
        q.comps = basePfx2 ++ pushed2 ∧
        (∃ t, basePfx2 ++ t = basePfx) ∧
        (∀ s ∈ pushed2, goodSeg s)
  | [], flag, basePfx, pushed, q, _, hpushed, hloop => by
    injection hloop with hloop
    subst hloop
    exact ⟨rfl, basePfx, pushed, rfl, ⟨[], by simp⟩, hpushed⟩
  | .normal seg :: rest, flag, basePfx, pushed, q, hcomps, hpushed, hloop => by
    have hgood : goodSeg seg := hcomps seg (List.mem_cons_self _ _)
    have hstep : sanitizeLoop ⟨flag, basePfx ++ (pushed ++ [seg])⟩ rest = some q := by
      simpa [sanitizeLoop, rpPush, List.append_assoc] using hloop
    refine sanitizeLoop_shape rest flag basePfx (pushed ++ [seg]) q
      (fun s hs => hcomps s (List.mem_cons_of_mem _ hs)) ?_ hstep
    intro s hs
    rcases List.mem_append.mp hs with h | h
    · exact hpushed s h
    · rcases List.mem_singleton.mp h with rfl
      exact hgood
  | .rootDir :: rest, flag, basePfx, pushed, q, _, _, hloop => by
    simp [sanitizeLoop] at hloop
  | .curDir :: rest, flag, basePfx, pushed, q, hcomps, hpushed, hloop => by
    exact sanitizeLoop_shape rest flag basePfx pushed q
      (fun s hs => hcomps s (List.mem_cons_of_mem _ hs)) hpushed
      (by simpa [sanitizeLoop] using hloop)
  | .parentDir :: rest, flag, basePfx, pushed, q, hcomps, hpushed, hloop => by
    rcases List.eq_nil_or_concat pushed with rfl | ⟨ps, p, hpp⟩
    · rcases basePfx with _ | ⟨b0, bs⟩
      · simp [sanitizeLoop, rpPop] at hloop
      · have hne : (b0 :: bs : List Str) ≠ [] := List.cons_ne_nil _ _
        have hpop : rpPop ⟨flag, (b0 :: bs) ++ []⟩ =
            some ⟨flag, (b0 :: bs).dropLast⟩ := by
          rw [List.append_nil]
          exact rpPop_nonempty flag _ hne
        have hstep : sanitizeLoop ⟨flag, (b0 :: bs).dropLast ++ []⟩ rest = some q := by
          rw [List.append_nil]
          simpa [sanitizeLoop, hpop] using hloop
        obtain ⟨hq, b2, p2, hcomps2, ⟨t, ht⟩, hp2⟩ :=
          sanitizeLoop_shape rest flag (b0 :: bs).dropLast [] q
            (fun s hs => hcomps s (List.mem_cons_of_mem _ hs)) (by simp) hstep
        refine ⟨hq, b2, p2, hcomps2, ⟨t ++ [(b0 :: bs).getLast hne], ?_⟩, hp2⟩
        rw [← List.append_assoc, ht, List.dropLast_append_getLast hne]
    · have hpp2 : pushed = ps ++ [p] := by
        rw [hpp, List.concat_eq_append]
      subst hpp2
      have hne : basePfx ++ (ps ++ [p]) ≠ [] := by simp
      have hpop : rpPop ⟨flag, basePfx ++ (ps ++ [p])⟩ =
          some ⟨flag, basePfx ++ ps⟩ := by
        rw [rpPop_nonempty flag _ hne]
        rw [← List.append_assoc, List.dropLast_concat]
      have hstep : sanitizeLoop ⟨flag, basePfx ++ ps⟩ rest = some q := by
        simpa [sanitizeLoop, hpop] using hloop
      exact sanitizeLoop_shape rest flag basePfx ps q
        (fun s hs => hcomps s (List.mem_cons_of_mem _ hs))
        (fun s hs => hpushed s (List.mem_append_left _ hs)) hstep

/-- Soundness of `sanitize_path`: a returned path extends the base by
well-formed segments only — it cannot name anything outside the base. -/
theorem sanitize_inside (base : RPath) (p : Str) (q : RPath)
    (h : sanitize_path base p = some q) :
    q.isAbs = base.isAbs ∧
    ∃ rest, q.comps = base.comps ++ rest ∧ ∀ s ∈ rest, goodSeg s := by
  obtain ⟨hloop, hlead⟩ :
      sanitizeLoop base (pathComponents p) = some q ∧ rpHasLead q base = true := by
    unfold sanitize_path at h
    split at h
    · cases h
    · rename_i full heq
      split_ifs at h with hlead
      · injection h with h
        rw [h] at heq hlead
        exact ⟨heq, hlead⟩
  have hbase : sanitizeLoop ⟨base.isAbs, base.comps ++ []⟩ (pathComponents p)
      = some q := by
    rw [List.append_nil]
    exact hloop
  obtain ⟨hq, b2, p2, hcomps2, ⟨t, ht⟩, hp2⟩ :=
    sanitizeLoop_shape (pathComponents p) base.isAbs base.comps [] q
      (fun s hs => pathComponents_normal_good hs) (by simp) hbase
  unfold rpHasLead at hlead
  rw [Bool.and_eq_true] at hlead
  obtain ⟨u, hu⟩ := (isPrefixOf_iff_append _ _).mp hlead.2
  refine ⟨hq, u, hu, ?_⟩
  intro s hs
  have hsplit : b2 ++ (t ++ u) = b2 ++ p2 := by
    rw [← List.append_assoc, ht, ← hu, hcomps2]
  have hcancel : t ++ u = p2 := List.append_cancel_left hsplit
  exact hp2 s (hcancel ▸ List.mem_append_right t hs)

/-- C1: for every root `R` and request path, the sanitized file path computed
by the file server is either `None` — which `file_directive` turns into
`DirectiveNotMatched` — or a path lying inside `R`: it extends `R`'s
components by plain segments only (no `..`, `.` or empty components), so no
file outside `R` can be named. -/
theorem sanitize_path_confines_to_root (env : Env) (root : Str)
    (fb : Option Str) (req : RequestM) :
    (∀ q, sanitize_path (parseRPath root) (trimLeadChar '/' (uriPath req)) = some q →
       q.isAbs = (parseRPath root).isAbs ∧
       ∃ rest, q.comps = (parseRPath root).comps ++ rest ∧ ∀ s ∈ rest, goodSeg s) ∧
    (sanitize_path (parseRPath root) (trimLeadChar '/' (uriPath req)) = none →
       file_directive env (some root) fb req = .error .directiveNotMatched) := by
  constructor
  · intro q hq
    exact sanitize_inside _ _ _ hq
  · intro hnone
    simp only [file_directive, hnone]

/-- Witness for C1: the sanitized form of `GET /a/../b.txt` under root
`/www` stays inside `/www`. -/
theorem sanitize_path_confines_to_root_witness :
    qW.isAbs = (parseRPath (s2l "/www")).isAbs ∧
    ∃ rest, qW.comps = (parseRPath (s2l "/www")).comps ++ rest ∧
      ∀ s ∈ rest, goodSeg s :=
  (sanitize_path_confines_to_root (envOf id) (s2l "/www") none reqW).1 qW (by decide)

/-- C2: at spec scenario E6 (100-byte file, `Range: bytes=10-19`) the file
server's response has status `206`, `Content-Range: bytes 10-19/100` and
`Content-Length: 10` as claimed — but the body streamed after the headers is
the file from offset 10 to end of file (90 bytes), not the 10-byte slice
`[10, 19]`: `send_response_file` copies the seeked file handle to the socket
with no limit, contradicting the response's own `Content-Length`. -/
theorem ranged_body_overruns_range :
    parse_range_header (s2l "bytes=10-19") 100 = .ok (10, 19) ∧
    ranged_file_response envE6 fileE6 pathE6 100 (10, 19) =
      .ok { status := 206,
            headers := [(s2l "content-length", natStr 10),
                        (s2l "content-range", s2l "bytes 10-19/100"),
                        (s2l "content-type", s2l "application/octet-stream")],
            body := fileE6.drop 10 } ∧
    file_directive envE6 (some (s2l "/www")) none reqE6 =
      .ok (206,
        respWireHead 206 [(s2l "content-length", natStr 10),
                          (s2l "content-range", s2l "bytes 10-19/100"),
                          (s2l "content-type", s2l "application/octet-stream")]
          ++ fileE6.drop 10) ∧
    (fileE6.drop 10).length = 90 ∧ 19 - 10 + 1 = 10 :=
  ⟨rfl, rfl, rfl, rfl, rfl⟩

/-- C3: `parse_range_header "bytes=-150"` on a file of size 100 must, per the
spec, fail with `416` because the resulting pair would violate
`start ≤ end < file_size`; instead the unchecked `file_size - end`
subtraction wraps (panicking in a debug build) and the function returns
`Ok` with `start = 2^64 - 50`, which violates `start ≤ end`. -/
theorem range_suffix_underflow :
    parse_range_header (s2l "bytes=-150") 100 = .ok (18446744073709551566, 99) ∧
    ¬ (18446744073709551566 ≤ (99 : Nat)) ∧ ¬ ((150 : Nat) ≤ 100) :=
  ⟨rfl, by decide, by decide⟩

/-- C10: `parse_range_header` is not total in the claimed sense: for
`"bytes=-200"` with `file_size = 100` the suffix-length computation
`file_size - end` underflows (debug builds panic; release builds wrap to
`2^64 - 100`), and instead of an error the function returns a pair whose
start offset lies far beyond the file. -/
theorem range_parser_partiality :
    parse_range_header (s2l "bytes=-200") 100 = .ok (18446744073709551516, 99) ∧
    (100 : Nat) ≤ 18446744073709551516 ∧ (99 : Nat) < 18446744073709551516 :=
  ⟨rfl, by decide, by decide⟩

/-- C8: for a request whose `Accept-Encoding` contains `gzip`, the bytes
written by `send_response_file` are the status line and the response's
headers — among which no `Content-Encoding` header occurs, the write that
would advertise it being commented out — followed by the gzip encoding of
the body.  The claim that `Content-Encoding: gzip` is advertised before the
blank line is false; the body is nevertheless gzip-encoded. -/
theorem gzip_encoded_body_header_missing (gz : List Nat → List Nat) :
    send_response_file (envOf gz) reqGz resp200 =
      respWireHead 200 resp200.headers ++ gz resp200.body ∧
    bytesContains (respWireHead 200 resp200.headers)
      (strBytes (s2l "Content-Encoding")) = false ∧
    bytesContains (respWireHead 200 resp200.headers)
      (strBytes (s2l "content-encoding")) = false ∧
    gzip_support_detect reqGz = true := by
  refine ⟨?_, by decide, by decide, by decide⟩
  simp only [send_response_file]
  rw [if_pos (show gzip_support_detect reqGz = true by decide)]
  rfl

/-- Witness for C8 with the identity encoder. -/
theorem gzip_encoded_body_header_missing_witness :
    send_response_file (envOf id) reqGz resp200 =
      respWireHead 200 resp200.headers ++ id resp200.body :=
  (gzip_encoded_body_header_missing id).1

/-- C4: host selection of `directive_process` — if some configured key
starts with `*`, that host's directives are walked for every request
regardless of the `Host` header; otherwise the exact `Host` value is looked
up; and if no key matches, the connection gets `403 Forbidden` and
processing terminates without evaluating any directive. -/
theorem host_selection_spec (env : Env) (proxy : Directive → Except CbltError Nat)
    (settings : SettingsMap) (req : RequestM) :
    (∀ k cfg, findWild settings = some (k, cfg) →
      directive_process env proxy settings req =
        walkDirectives env proxy req cfg.directives none none) ∧
    (findWild settings = none →
      ∀ cfg, hostsGet settings (hostOf req) = some cfg →
        directive_process env proxy settings req =
          walkDirectives env proxy req cfg.directives none none) ∧
    (findWild settings = none → hostsGet settings (hostOf req) = none →
      directive_process env proxy settings req =
        { sent := [send_response (error_response 403)],
          result := .error (.responseError (s2l "Forbidden") 403) }) := by
  refine ⟨?_, ?_, ?_⟩
  · intro k cfg hw
    simp only [directive_process, hw]
  · intro hw cfg hg
    simp only [directive_process, hw, hg]
  · intro hw hg
    simp only [directive_process, hw, hg]

/-- Witness for C4: a request for an unconfigured host gets the `403`. -/
theorem host_selection_spec_witness :
    directive_process (envOf id) (fun _ => .error .directiveNotMatched)
        settingsExact reqBadHost =
      { sent := [send_response (error_response 403)],
        result := .error (.responseError (s2l "Forbidden") 403) } :=
  (host_selection_spec (envOf id) (fun _ => .error .directiveNotMatched)
    settingsExact reqBadHost).2.2 (by decide) (by decide)

/-- C9: a request reaching a `Redir` directive is answered with `302 Found`,
a `Location` header equal to the destination with every `{uri}` replaced by
the request's path (query string excluded), an empty body, and the walk
terminates. -/
theorem redir_emits_found (env : Env) (proxy : Directive → Except CbltError Nat)
    (req : RequestM) (rest : List Directive) (rootPath fallbackFile : Option Str)
    (dest : Str) :
    walkDirectives env proxy req (.redir dest :: rest) rootPath fallbackFile =
      { sent := [send_response
          { status := 302,
            headers := [(s2l "location",
                         replaceAll dest (s2l "{uri}") (uriPath req))],
            body := [] }],
        result := .ok () } :=
  rfl

/-- Witness for C9, spec scenario E3: `GET /foo?bar` against destination
`https://example.com{uri}` redirects to `https://example.com/foo`. -/
theorem redir_emits_found_witness :
    walkDirectives (envOf id) (fun _ => .error .directiveNotMatched) reqE3
        [.redir (s2l "https://example.com{uri}")] none none =
      { sent := [send_response
          { status := 302,
            headers := [(s2l "location", s2l "https://example.com/foo")],
            body := [] }],
        result := .ok () } := by
  rw [redir_emits_found]
  decide

/-- Advancing by `0 < m < n` steps modulo `n` from `idx < n` leaves `idx`. -/
theorem mod_cycle_ne (n idx m : Nat) (hidx : idx < n) (hm1 : 0 < m)
    (hm2 : m < n) : (idx + m) % n ≠ idx := by
  intro h
  rcases Nat.lt_or_ge (idx + m) n with hlt | hge
  · rw [Nat.mod_eq_of_lt hlt] at h
    omega
  · rw [Nat.mod_eq_sub_mod hge, Nat.mod_eq_of_lt (by omega)] at h
    omega

/-- Every residue below `n` is reached within `n` steps from any start. -/
theorem residue_cover (n idx j : Nat) (hidx : idx < n) (hj : j < n) :
    ∃ k, k < n ∧ (idx + k) % n = j := by
  rcases le_or_lt idx j with h | h
  · refine ⟨j - idx, by omega, ?_⟩
    have : idx + (j - idx) = j := by omega
    rw [this, Nat.mod_eq_of_lt hj]
  · refine ⟨n - (idx - j), by omega, ?_⟩
    have : idx + (n - (idx - j)) = j + n := by omega
    rw [this, Nat.add_mod_right, Nat.mod_eq_of_lt hj]

/-- An entry read through `getElem?` is a member of the list. -/
theorem mem_of_entry {bs : List Backend} {j : Nat} {b : Backend}
    (h : bs[j]? = some b) : b ∈ bs := by
  obtain ⟨hlt, hEq⟩ := List.getElem?_eq_some_iff.mp h
  exact hEq ▸ List.getElem_mem hlt

/-- Soundness of a pick: if the scan returns `(url, j)`, then the entry at
`j` of the input list was `Alive`, or `Dead`, strictly past its interval
with retries remaining; the pick carries that entry's url; a dead pick is
revived to `Alive now` in the output list; and `j` lies within the first
`fuel` cursor positions. -/
theorem scanLoop_pick_sound :
    ∀ (fuel : Nat) (bs : List Backend) (idx now interval : Nat)
      (url : Str) (j : Nat) (bs2 : List Backend) (c2 : Nat),
      fuel ≤ bs.length → idx < bs.length →
      scanLoop now interval fuel bs idx = (some (url, j), bs2, c2) →
      ∃ k, k < fuel ∧ j = (idx + k) % bs.length ∧
        ∃ b, bs[j]? = some b ∧ url = b.url ∧
          pickEligible now interval b = true ∧
          ((isAliveB b = true ∧ bs2[j]? = some b) ∨
           (isAliveB b = false ∧ bs2[j]? = some ⟨b.url, .alive now⟩))
  | 0, bs, idx, now, interval, url, j, bs2, c2, hfuel, hidx, hscan => by
    simp [scanLoop] at hscan
  | fuel + 1, bs, idx, now, interval, url, j, bs2, c2, hfuel, hidx, hscan => by
    have hn : 0 < bs.length := Nat.lt_of_le_of_lt (Nat.zero_le idx) hidx
    rcases hb : bs[idx]? with _ | b
    · rw [List.getElem?_eq_none_iff] at hb
      omega
    · cases hstate : b.aliveState with
      | alive ts =>
        simp only [scanLoop, hb, hstate, Prod.mk.injEq, Option.some.injEq] at hscan
        obtain ⟨⟨hurl, hj⟩, hbs, _⟩ := hscan
        subst hurl hj hbs
        exact ⟨0, by omega, by rw [Nat.add_zero, Nat.mod_eq_of_lt hidx], b, hb,
          rfl, by simp [pickEligible, hstate],
          Or.inl ⟨by simp [isAliveB, hstate], hb⟩⟩
      | dead since r =>
        by_cases ht : since + interval < now
        · by_cases hr : 0 < r
          · simp only [scanLoop, hb, hstate, gt_iff_lt, if_pos ht, if_pos hr,
              Prod.mk.injEq, Option.some.injEq] at hscan
            obtain ⟨⟨hurl, hj⟩, hbs, _⟩ := hscan
            subst hurl hj hbs
            refine ⟨0, by omega, by rw [Nat.add_zero, Nat.mod_eq_of_lt hidx],
              b, hb, rfl, by simp [pickEligible, hstate, ht, hr], Or.inr ?_⟩
            refine ⟨by simp [isAliveB, hstate], ?_⟩
            exact List.getElem?_set_self hidx
          · simp only [scanLoop, hb, hstate, gt_iff_lt, if_pos ht, if_neg hr] at hscan
            have hlen : (bs.set idx { b with aliveState := .dead now r }).length
                = bs.length := List.length_set ..
            have hidx2 : (idx + 1) % bs.length <
                (bs.set idx { b with aliveState := .dead now r }).length := by
              rw [hlen]
              exact Nat.mod_lt _ hn
            obtain ⟨k, hk, hj, b2, hb2, hurl2, helig2, hpost2⟩ :=
              scanLoop_pick_sound fuel _ _ now interval url j bs2 c2
                (by rw [hlen]; omega) hidx2 hscan
            rw [hlen] at hj
            rw [Nat.mod_add_mod] at hj
            have hj2 : j = (idx + (k + 1)) % bs.length := by
              rw [hj]
              congr 1
              omega
            have hne : j ≠ idx := by
              rw [hj2]
              exact mod_cycle_ne _ _ _ hidx (by omega) (by omega)
            rw [List.getElem?_set_ne (Ne.symm hne)] at hb2
            exact ⟨k + 1, by omega, hj2, b2, hb2, hurl2, helig2, hpost2⟩
        · simp only [scanLoop, hb, hstate, gt_iff_lt, if_neg ht] at hscan
          have hidx2 : (idx + 1) % bs.length < bs.length := Nat.mod_lt _ hn
          obtain ⟨k, hk, hj, b2, hb2, hurl2, helig2, hpost2⟩ :=
            scanLoop_pick_sound fuel bs _ now interval url j bs2 c2
              (by omega) hidx2 hscan
          rw [Nat.mod_add_mod] at hj
          have hj2 : j = (idx + (k + 1)) % bs.length := by
            rw [hj]
            congr 1
            omega
          exact ⟨k + 1, by omega, hj2, b2, hb2, hurl2, helig2, hpost2⟩

/-- Exhaustion of the scan: if no backend is picked, every entry within the
first `fuel` cursor positions was ineligible — dead entries strictly past
their interval (necessarily with no retries left) get `since` reset to `now`
with `retries_left` unchanged, all other visited entries are untouched — and
entries outside the visited window are untouched. -/
theorem scanLoop_none_spec :
    ∀ (fuel : Nat) (bs : List Backend) (idx now interval : Nat)
      (bs2 : List Backend) (c2 : Nat),
      fuel ≤ bs.length → idx < bs.length →
      scanLoop now interval fuel bs idx = (none, bs2, c2) →
      (∀ k, k < fuel → ∀ b, bs[(idx + k) % bs.length]? = some b →
        pickEligible now interval b = false ∧
        ∀ since r, b.aliveState = .dead since r →
          (since + interval < now →
            bs2[(idx + k) % bs.length]? = some ⟨b.url, .dead now r⟩) ∧
          (¬ since + interval < now →
            bs2[(idx + k) % bs.length]? = some b)) ∧
      (∀ j, (∀ k, k < fuel → j ≠ (idx + k) % bs.length) → bs2[j]? = bs[j]?) ∧
      bs2.length = bs.length
  | 0, bs, idx, now, interval, bs2, c2, hfuel, hidx, hscan => by
    simp only [scanLoop, Prod.mk.injEq] at hscan
    obtain ⟨-, hbs, -⟩ := hscan
    subst hbs
    exact ⟨fun k hk => absurd hk (by omega), fun j _ => rfl, rfl⟩
  | fuel + 1, bs, idx, now, interval, bs2, c2, hfuel, hidx, hscan => by
    have hn : 0 < bs.length := Nat.lt_of_le_of_lt (Nat.zero_le idx) hidx
    rcases hb : bs[idx]? with _ | b
    · rw [List.getElem?_eq_none_iff] at hb
      omega
    · cases hstate : b.aliveState with
      | alive ts =>
        simp [scanLoop, hb, hstate] at hscan
      | dead since r =>
        by_cases ht : since + interval < now
        · by_cases hr : 0 < r
          · simp [scanLoop, hb, hstate, if_pos ht, if_pos hr] at hscan
          · simp only [scanLoop, hb, hstate, gt_iff_lt, if_pos ht, if_neg hr] at hscan
            have hlen : (bs.set idx { b with aliveState := .dead now r }).length
                = bs.length := List.length_set ..
            have hidx2 : (idx + 1) % bs.length <
                (bs.set idx { b with aliveState := .dead now r }).length := by
              rw [hlen]
              exact Nat.mod_lt _ hn
            obtain ⟨hper, hout, hlen2⟩ :=
              scanLoop_none_spec fuel _ ((idx + 1) % bs.length) now interval bs2 c2
                (by rw [hlen]; omega) hidx2 hscan
            rw [hlen] at hper hout
            rw [hlen] at hlen2
            have hvisit : ∀ k, k < fuel →
                ((idx + 1) % bs.length + k) % bs.length
                  = (idx + (k + 1)) % bs.length := by
              intro k _
              rw [Nat.mod_add_mod]
              congr 1
              omega
            have hidxout : bs2[idx]? = some ⟨b.url, .dead now r⟩ := by
              have h1 : bs2[idx]? =
                  (bs.set idx { b with aliveState := .dead now r })[idx]? := by
                apply hout
                intro k hk
                rw [hvisit k hk]
                exact (mod_cycle_ne _ _ _ hidx (by omega) (by omega)).symm
              rw [h1, List.getElem?_set_self hidx]
            refine ⟨?_, ?_, by rw [hlen2]⟩
            · intro k hk b0 hb0
              rcases Nat.eq_zero_or_pos k with rfl | hkpos
              · rw [Nat.add_zero, Nat.mod_eq_of_lt hidx] at hb0 ⊢
                rw [hb] at hb0
                injection hb0 with hb0
                subst hb0
                refine ⟨by simp [pickEligible, hstate, hr], ?_⟩
                intro s2 r2 hsr
                rw [hstate] at hsr
                injection hsr with h1 h2
                subst h1 h2
                exact ⟨fun _ => hidxout, fun hc => absurd ht hc⟩
              · have hne : (idx + k) % bs.length ≠ idx :=
                  mod_cycle_ne _ _ _ hidx (by omega) (by omega)
                have hb0' : (bs.set idx
                    { b with aliveState := .dead now r })[(idx + k) % bs.length]?
                    = some b0 := by
                  rw [List.getElem?_set_ne (Ne.symm hne)]
                  exact hb0
                have := hper (k - 1) (by omega) b0
                rw [hvisit (k - 1) (by omega)] at this
                have hk1 : k - 1 + 1 = k := by omega
                rw [hk1] at this
                exact this hb0'
            · intro j hj
              have h1 : bs2[j]? =
                  (bs.set idx { b with aliveState := .dead now r })[j]? := by
                apply hout
                intro k hk
                rw [hvisit k hk]
                exact hj (k + 1) (by omega)
              rw [h1, List.getElem?_set_ne]
              intro hEq
              exact hj 0 (by omega) (by rw [← hEq, Nat.add_zero, Nat.mod_eq_of_lt hidx])
        · simp only [scanLoop, hb, hstate, gt_iff_lt, if_neg ht] at hscan
          have hidx2 : (idx + 1) % bs.length < bs.length := Nat.mod_lt _ hn
          obtain ⟨hper, hout, hlen2⟩ :=
            scanLoop_none_spec fuel bs ((idx + 1) % bs.length) now interval bs2 c2
              (by omega) hidx2 hscan
          have hvisit : ∀ k, k < fuel →
              ((idx + 1) % bs.length + k) % bs.length
                = (idx + (k + 1)) % bs.length := by
            intro k _
            rw [Nat.mod_add_mod]
            congr 1
            omega
          refine ⟨?_, ?_, hlen2⟩
          · intro k hk b0 hb0
            rcases Nat.eq_zero_or_pos k with rfl | hkpos
            · rw [Nat.add_zero, Nat.mod_eq_of_lt hidx] at hb0 ⊢
              rw [hb] at hb0
              injection hb0 with hb0
              subst hb0
              refine ⟨by simp [pickEligible, hstate, ht], ?_⟩
              intro s2 r2 hsr
              rw [hstate] at hsr
              injection hsr with h1 h2
              subst h1 h2
              refine ⟨fun hc => absurd hc ht, fun _ => ?_⟩
              rw [← hb]
              apply hout
              intro k2 hk2
              rw [hvisit k2 hk2]
              exact (mod_cycle_ne _ _ _ hidx (by omega) (by omega)).symm
            · have := hper (k - 1) (by omega) b0
              rw [hvisit (k - 1) (by omega)] at this
              have hk1 : k - 1 + 1 = k := by omega
              rw [hk1] at this
              exact this hb0
          · intro j hj
            apply hout
            intro k hk
            rw [hvisit k hk]
            exact hj (k + 1) (by omega)

/-- Totality of the scan: if some position within the visited window holds
an `Alive` backend, the scan picks a backend. -/
theorem scanLoop_finds_alive :
    ∀ (fuel : Nat) (bs : List Backend) (idx now interval : Nat),
      fuel ≤ bs.length → idx < bs.length →
      (∃ k, k < fuel ∧ ∃ b, bs[(idx + k) % bs.length]? = some b ∧
        isAliveB b = true) →
      ∃ url j bs2 c2, scanLoop now interval fuel bs idx = (some (url, j), bs2, c2)
  | 0, bs, idx, now, interval, hfuel, hidx, hex => by
    obtain ⟨k, hk, _⟩ := hex
    omega
  | fuel + 1, bs, idx, now, interval, hfuel, hidx, hex => by
    have hn : 0 < bs.length := Nat.lt_of_le_of_lt (Nat.zero_le idx) hidx
    obtain ⟨k, hk, b0, hb0, halive0⟩ := hex
    rcases hb : bs[idx]? with _ | b
    · rw [List.getElem?_eq_none_iff] at hb
      omega
    · cases hstate : b.aliveState with
      | alive ts =>
        refine ⟨b.url, idx, bs, (idx + 1) % bs.length, ?_⟩
        simp [scanLoop, hb, hstate]
      | dead since r =>
        have hkpos : 0 < k := by
          rcases Nat.eq_zero_or_pos k with rfl | hp
          · rw [Nat.add_zero, Nat.mod_eq_of_lt hidx, hb] at hb0
            injection hb0 with hb0
            subst hb0
            rw [isAliveB, hstate] at halive0
            cases halive0
          · exact hp
        have hne : (idx + k) % bs.length ≠ idx :=
          mod_cycle_ne _ _ _ hidx (by omega) (by omega)
        have hkk : (idx + k) % bs.length
            = ((idx + 1) % bs.length + (k - 1)) % bs.length := by
          rw [Nat.mod_add_mod]
          congr 1
          omega
        have hidx2 : (idx + 1) % bs.length < bs.length := Nat.mod_lt _ hn
        by_cases ht : since + interval < now
        · by_cases hr : 0 < r
          · refine ⟨b.url, idx, bs.set idx { b with aliveState := .alive now },
              (idx + 1) % bs.length, ?_⟩
            simp [scanLoop, hb, hstate, if_pos ht, if_pos hr]
          · have hwit : ∃ k2, k2 < fuel ∧ ∃ b2,
                (bs.set idx { b with aliveState := .dead now r })[((idx + 1)
                  % bs.length + k2) % (bs.set idx
                    { b with aliveState := .dead now r }).length]? = some b2 ∧
                isAliveB b2 = true := by
              refine ⟨k - 1, by omega, b0, ?_, halive0⟩
              rw [List.length_set, ← hkk, List.getElem?_set_ne (Ne.symm hne)]
              exact hb0
            obtain ⟨url, j, bs2, c2, hrec⟩ :=
              scanLoop_finds_alive fuel _ ((idx + 1) % bs.length) now interval
                (by rw [List.length_set]; omega)
                (by rw [List.length_set]; exact hidx2) hwit
            refine ⟨url, j, bs2, c2, ?_⟩
            simp only [scanLoop, hb, hstate, gt_iff_lt, if_pos ht, if_neg hr]
            exact hrec
        · have hwit : ∃ k2, k2 < fuel ∧ ∃ b2,
              bs[((idx + 1) % bs.length + k2) % bs.length]? = some b2 ∧
              isAliveB b2 = true := by
            refine ⟨k - 1, by omega, b0, ?_, halive0⟩
            rw [← hkk]
            exact hb0
          obtain ⟨url, j, bs2, c2, hrec⟩ :=
            scanLoop_finds_alive fuel bs ((idx + 1) % bs.length) now interval
              (by omega) hidx2 hwit
          refine ⟨url, j, bs2, c2, ?_⟩
          simp only [scanLoop, hb, hstate, gt_iff_lt, if_neg ht]
          exact hrec

/-- Soundness of a successful selection: the picked backend was `Alive`, or
`Dead` strictly past its interval with retries left, in which case it is
revived to `Alive now` in the post-state. -/
theorem gnb_ok_sound (st : ReverseProxyState) (addr : IpAddr) (now : Nat)
    (hcur : st.currentBackend < st.backends.length)
    (hurl : ∀ b ∈ st.backends, b.url.length ≤ 100) :
    ∀ lb st2, getNextBackend st addr now = (.ok lb, st2) →
      ∃ b, st.backends[lb.backendIndex]? = some b ∧ lb.address = b.url ∧
        pickEligible now st.options.lbInterval b = true ∧
        ((isAliveB b = true ∧ st2.backends[lb.backendIndex]? = some b) ∨
         (isAliveB b = false ∧
           st2.backends[lb.backendIndex]? = some ⟨b.url, .alive now⟩)) := by
  intro lb st2 h
  have hn : 0 < st.backends.length := Nat.lt_of_le_of_lt (Nat.zero_le _) hcur
  cases hpol : st.lbPolicy with
  | roundRobin =>
    rcases hscan : scanLoop now st.options.lbInterval st.backends.length
        st.backends st.currentBackend with ⟨p, bs2, c2⟩
    rcases p with _ | ⟨url, j⟩
    · simp [getNextBackend, hpol, hscan] at h
    · obtain ⟨k, hk, hj, b, hbj, hburl, helig, hpost⟩ :=
        scanLoop_pick_sound st.backends.length st.backends st.currentBackend
          now st.options.lbInterval url j bs2 c2 (le_refl _) hcur hscan
      have hok : heaplessOf 100 url = .ok url := by
        unfold heaplessOf
        rw [if_pos]
        rw [hburl]
        exact hurl b (mem_of_entry hbj)
      simp only [getNextBackend, hpol, hscan, hok, Prod.mk.injEq,
        Except.ok.injEq] at h
      obtain ⟨hlb, hst2⟩ := h
      subst hlb
      subst hst2
      exact ⟨b, hbj, hburl, helig, hpost⟩
  | ipHash =>
    cases addr with
    | v6 => simp [getNextBackend, hpol] at h
    | v4 o1 o2 o3 o4 =>
      have hstart : generate_number_from_octet o1 o2 o3 o4 st.backends.length
          < st.backends.length := by
        unfold generate_number_from_octet
        exact Nat.mod_lt _ hn
      rcases hscan : scanLoop now st.options.lbInterval st.backends.length
          st.backends (generate_number_from_octet o1 o2 o3 o4
            st.backends.length) with ⟨p, bs2, c2⟩
      rcases p with _ | ⟨url, j⟩
      · simp [getNextBackend, hpol, hscan] at h
      · obtain ⟨k, hk, hj, b, hbj, hburl, helig, hpost⟩ :=
          scanLoop_pick_sound st.backends.length st.backends _
            now st.options.lbInterval url j bs2 c2 (le_refl _) hstart hscan
        have hok : heaplessOf 100 url = .ok url := by
          unfold heaplessOf
          rw [if_pos]
          rw [hburl]
          exact hurl b (mem_of_entry hbj)
        simp only [getNextBackend, hpol, hscan, hok, Prod.mk.injEq,
          Except.ok.injEq] at h
        obtain ⟨hlb, hst2⟩ := h
        subst hlb
        subst hst2
        exact ⟨b, hbj, hburl, helig, hpost⟩

/-- A failed selection carries status `502`, and — for `RoundRobin`, or
`IPHash` with an IPv4 client — happens only when no backend was eligible;
every dead backend strictly past its interval then has `since` reset to
`now` with `retries_left` unchanged. -/
theorem gnb_err_spec (st : ReverseProxyState) (addr : IpAddr) (now : Nat)
    (hcur : st.currentBackend < st.backends.length)
    (hurl : ∀ b ∈ st.backends, b.url.length ≤ 100) :
    ∀ e st2, getNextBackend st addr now = (.error e, st2) →
      (∃ d, e = .responseError d 502) ∧
      ((st.lbPolicy = .roundRobin ∨ addr ≠ .v6) →
        ∀ (j : Nat) (b : Backend), st.backends[j]? = some b →
          pickEligible now st.options.lbInterval b = false ∧
          ∀ since r, b.aliveState = .dead since r → since + st.options.lbInterval < now →
            st2.backends[j]? = some (⟨b.url, .dead now r⟩ : Backend)) := by
  intro e st2 h
  have hn : 0 < st.backends.length := Nat.lt_of_le_of_lt (Nat.zero_le _) hcur
  cases hpol : st.lbPolicy with
  | roundRobin =>
    rcases hscan : scanLoop now st.options.lbInterval st.backends.length
        st.backends st.currentBackend with ⟨p, bs2, c2⟩
    rcases p with _ | ⟨url, j⟩
    · simp only [getNextBackend, hpol, hscan, Prod.mk.injEq,
        Except.error.injEq] at h
      obtain ⟨he, hst2⟩ := h
      subst he
      subst hst2
      constructor
      · exact ⟨_, rfl⟩
      intro _ j b hjb
      have hjlt : j < st.backends.length :=
        (List.getElem?_eq_some_iff.mp hjb).1
      obtain ⟨k, hk, hkj⟩ :=
        residue_cover st.backends.length st.currentBackend j hcur hjlt
      obtain ⟨hper, _, _⟩ :=
        scanLoop_none_spec st.backends.length st.backends st.currentBackend
          now st.options.lbInterval bs2 c2 (le_refl _) hcur hscan
      have hcl := hper k hk b (by rw [hkj]; exact hjb)
      rw [hkj] at hcl
      exact ⟨hcl.1, fun since r hsr hlt => ((hcl.2 since r hsr).1 hlt)⟩
    · obtain ⟨k, hk, hj, b, hbj, hburl, helig, hpost⟩ :=
        scanLoop_pick_sound st.backends.length st.backends st.currentBackend
          now st.options.lbInterval url j bs2 c2 (le_refl _) hcur hscan
      have hok : heaplessOf 100 url = .ok url := by
        unfold heaplessOf
        rw [if_pos]
        rw [hburl]
        exact hurl b (mem_of_entry hbj)
      simp [getNextBackend, hpol, hscan, hok] at h
  | ipHash =>
    cases addr with
    | v6 =>
      simp only [getNextBackend, hpol, Prod.mk.injEq, Except.error.injEq] at h
      obtain ⟨he, hst2⟩ := h
      subst he
      subst hst2
      constructor
      · exact ⟨_, rfl⟩
      intro hg
      rcases hg with hg | hg
      · simp at hg
      · exact absurd rfl hg
    | v4 o1 o2 o3 o4 =>
      have hstart : generate_number_from_octet o1 o2 o3 o4 st.backends.length
          < st.backends.length := by
        unfold generate_number_from_octet
        exact Nat.mod_lt _ hn
      rcases hscan : scanLoop now st.options.lbInterval st.backends.length
          st.backends (generate_number_from_octet o1 o2 o3 o4
            st.backends.length) with ⟨p, bs2, c2⟩
      rcases p with _ | ⟨url, j⟩
      · simp only [getNextBackend, hpol, hscan, Prod.mk.injEq,
          Except.error.injEq] at h
        obtain ⟨he, hst2⟩ := h
        subst he
        subst hst2
        constructor
        · exact ⟨_, rfl⟩
        intro _ j b hjb
        have hjlt : j < st.backends.length :=
          (List.getElem?_eq_some_iff.mp hjb).1
        obtain ⟨k, hk, hkj⟩ :=
          residue_cover st.backends.length _ j hstart hjlt
        obtain ⟨hper, _, _⟩ :=
          scanLoop_none_spec st.backends.length st.backends _
            now st.options.lbInterval bs2 c2 (le_refl _) hstart hscan
        have hcl := hper k hk b (by rw [hkj]; exact hjb)
        rw [hkj] at hcl
        exact ⟨hcl.1, fun since r hsr hlt => ((hcl.2 since r hsr).1 hlt)⟩
      · obtain ⟨k, hk, hj, b, hbj, hburl, helig, hpost⟩ :=
          scanLoop_pick_sound st.backends.length st.backends _
            now st.options.lbInterval url j bs2 c2 (le_refl _) hstart hscan
        have hok : heaplessOf 100 url = .ok url := by
          unfold heaplessOf
          rw [if_pos]
          rw [hburl]
          exact hurl b (mem_of_entry hbj)
        simp [getNextBackend, hpol, hscan, hok] at h

/-- Totality of selection: with an `Alive` backend present, a `RoundRobin`
call — or an `IPHash` call from an IPv4 client — succeeds. -/
theorem gnb_total (st : ReverseProxyState) (addr : IpAddr) (now : Nat)
    (hcur : st.currentBackend < st.backends.length)
    (hurl : ∀ b ∈ st.backends, b.url.length ≤ 100) :
    (st.lbPolicy = .roundRobin ∨ addr ≠ .v6) →
    (∃ b ∈ st.backends, isAliveB b = true) →
    ∃ lb st2, getNextBackend st addr now = (.ok lb, st2) := by
  intro hg hex
  obtain ⟨b0, hmem, halive⟩ := hex
  obtain ⟨j, hj⟩ := List.getElem?_of_mem hmem
  have hjlt : j < st.backends.length := (List.getElem?_eq_some_iff.mp hj).1
  have hn : 0 < st.backends.length := Nat.lt_of_le_of_lt (Nat.zero_le _) hcur
  cases hpol : st.lbPolicy with
  | roundRobin =>
    obtain ⟨k, hk, hkj⟩ :=
      residue_cover st.backends.length st.currentBackend j hcur hjlt
    obtain ⟨url, j2, bs2, c2, hscan⟩ :=
      scanLoop_finds_alive st.backends.length st.backends st.currentBackend
        now st.options.lbInterval (le_refl _) hcur
        ⟨k, hk, b0, by rw [hkj]; exact hj, halive⟩
    obtain ⟨k2, _, _, b, hbj2, hburl, _, _⟩ :=
      scanLoop_pick_sound st.backends.length st.backends st.currentBackend
        now st.options.lbInterval url j2 bs2 c2 (le_refl _) hcur hscan
    have hok : heaplessOf 100 url = .ok url := by
      unfold heaplessOf
      rw [if_pos]
      rw [hburl]
      exact hurl b (mem_of_entry hbj2)
    refine ⟨⟨url, j2⟩,
      { st with backends := bs2, currentBackend := c2 }, ?_⟩
    simp only [getNextBackend, hpol, hscan, hok]
  | ipHash =>
    cases addr with
    | v6 =>
      rcases hg with hg | hg
      · rw [hpol] at hg
        cases hg
      · exact absurd rfl hg
    | v4 o1 o2 o3 o4 =>
      have hstart : generate_number_from_octet o1 o2 o3 o4 st.backends.length
          < st.backends.length := by
        unfold generate_number_from_octet
        exact Nat.mod_lt _ hn
      obtain ⟨k, hk, hkj⟩ :=
        residue_cover st.backends.length _ j hstart hjlt
      obtain ⟨url, j2, bs2, c2, hscan⟩ :=
        scanLoop_finds_alive st.backends.length st.backends _
          now st.options.lbInterval (le_refl _) hstart
          ⟨k, hk, b0, by rw [hkj]; exact hj, halive⟩
      obtain ⟨k2, _, _, b, hbj2, hburl, _, _⟩ :=
        scanLoop_pick_sound st.backends.length st.backends _
          now st.options.lbInterval url j2 bs2 c2 (le_refl _) hstart hscan
      have hok : heaplessOf 100 url = .ok url := by
        unfold heaplessOf
        rw [if_pos]
        rw [hburl]
        exact hurl b (mem_of_entry hbj2)
      refine ⟨⟨url, j2⟩, { st with backends := bs2 }, ?_⟩
      simp only [getNextBackend, hpol, hscan, hok]

/-- C5 (amended): a backend is picked exactly when it is `Alive`, or `Dead`
with `now` strictly greater than `since + lb_interval` (the code tests
`now > since + interval`, not `≥`) and `retries_left > 0`; in the latter
case the call transitions the backend to `Alive(now)` (the `retries_left`
decrement is immediately overwritten by the revival) before returning it;
when the whole list yields no pick the call fails with an error carrying
status `502` and indeed no backend was eligible; and whenever at least one
backend is `Alive`, the call succeeds — for `RoundRobin` always, and for
`IpHash` whenever the client address is IPv4 (an IPv6 client always gets
`502`). -/
theorem get_next_backend_spec (st : ReverseProxyState) (addr : IpAddr)
    (now : Nat)
    (hcur : st.currentBackend < st.backends.length)
    (hurl : ∀ b ∈ st.backends, b.url.length ≤ 100) :
    (∀ lb st2, getNextBackend st addr now = (.ok lb, st2) →
      ∃ b, st.backends[lb.backendIndex]? = some b ∧ lb.address = b.url ∧
        pickEligible now st.options.lbInterval b = true ∧
        ((isAliveB b = true ∧ st2.backends[lb.backendIndex]? = some b) ∨
         (isAliveB b = false ∧
           st2.backends[lb.backendIndex]? = some (⟨b.url, .alive now⟩ : Backend)))) ∧
    (∀ e st2, getNextBackend st addr now = (.error e, st2) →
      (∃ d, e = .responseError d 502) ∧
      ((st.lbPolicy = .roundRobin ∨ addr ≠ .v6) →
        ∀ (j : Nat) (b : Backend), st.backends[j]? = some b →
          pickEligible now st.options.lbInterval b = false)) ∧
    ((st.lbPolicy = .roundRobin ∨ addr ≠ .v6) →
      (∃ b ∈ st.backends, isAliveB b = true) →
      ∃ lb st2, getNextBackend st addr now = (.ok lb, st2)) :=
  ⟨gnb_ok_sound st addr now hcur hurl,
   fun e st2 h =>
     ⟨(gnb_err_spec st addr now hcur hurl e st2 h).1,
      fun hg j b hjb =>
        ((gnb_err_spec st addr now hcur hurl e st2 h).2 hg j b hjb).1⟩,
   gnb_total st addr now hcur hurl⟩

/-- Witness for C5: with one alive backend the selection succeeds. -/
theorem get_next_backend_spec_witness :
    ∃ lb st2, getNextBackend stW (.v4 1 2 3 4) 99 = (.ok lb, st2) :=
  (get_next_backend_spec stW (.v4 1 2 3 4) 99 (by decide) (by decide)).2.2
    (Or.inl rfl) ⟨⟨s2l "b1", .alive 0⟩, by decide, rfl⟩

/-- Counterexample to C5 as stated: at the exact boundary
`now = since + lb_interval` (here `60 = 0 + 60`) a dead backend with
retries left satisfies the claim's eligibility condition
(`now ≥ since + lb_interval` and `retries_left > 0`), yet the call returns
the `502` error instead of picking it: the code requires strictly
`now > since + lb_interval`. -/
theorem get_next_backend_boundary_counterexample :
    (getNextBackend stC5 (.v4 1 2 3 4) 60).1 =
      .error (.responseError (s2l "No healthy backends") 502) ∧
    stC5.backends = [⟨s2l "b1", .dead 0 2⟩] ∧
    stC5.options.lbInterval = 60 ∧ (60 : Nat) ≥ 0 + 60 ∧ (2 : Nat) > 0 :=
  ⟨rfl, rfl, rfl, by omega, by omega⟩

/-- C6 (amended): a backend in state `Dead { since, retries_left = 0 }`
observed by a selection call with `now` strictly past `since + lb_interval`
has only its `since` timestamp reset: the post-state is
`Dead { since = now, retries_left = 0 }` — `retries_left` is not restored
to `lb_retries`, so a permanently dead backend is never picked again — and
the backend is not picked by that call. -/
theorem dead_backend_since_reset_spec (st : ReverseProxyState) (addr : IpAddr)
    (now : Nat)
    (hcur : st.currentBackend < st.backends.length)
    (hurl : ∀ b ∈ st.backends, b.url.length ≤ 100) :
    (∀ lb st2, getNextBackend st addr now = (.ok lb, st2) →
      ∀ b : Backend, st.backends[lb.backendIndex]? = some b →
        ∀ s : Nat, b.aliveState ≠ .dead s 0) ∧
    (∀ e st2, getNextBackend st addr now = (.error e, st2) →
      (st.lbPolicy = .roundRobin ∨ addr ≠ .v6) →
      ∀ (j : Nat) (b : Backend) (s : Nat), st.backends[j]? = some b →
        b.aliveState = .dead s 0 → s + st.options.lbInterval < now →
        st2.backends[j]? = some (⟨b.url, .dead now 0⟩ : Backend)) := by
  constructor
  · intro lb st2 h b hb s hdead
    obtain ⟨b2, hb2, _, helig, _⟩ := gnb_ok_sound st addr now hcur hurl lb st2 h
    rw [hb] at hb2
    injection hb2 with hb2
    subst hb2
    simp [pickEligible, hdead] at helig
  · intro e st2 h hg j b s hjb hdead hlt
    exact ((gnb_err_spec st addr now hcur hurl e st2 h).2 hg j b hjb).2
      s 0 hdead hlt

/-- Witness for C6: the permanently dead backend of `stC6` observed at
`now = 10` ends as `Dead { since = 10, retries_left = 0 }`. -/
theorem dead_backend_since_reset_spec_witness :
    ({ backends := [⟨s2l "b1", .dead 10 0⟩], lbPolicy := .roundRobin,
       currentBackend := 0,
       options := ⟨2, 5, 1, some .roundRobin⟩ } :
        ReverseProxyState).backends[0]?
      = some (⟨s2l "b1", .dead 10 0⟩ : Backend) :=
  (dead_backend_since_reset_spec stC6 (.v4 1 2 3 4) 10 (by decide)
      (by decide)).2
    (.responseError (s2l "No healthy backends") 502)
    { backends := [⟨s2l "b1", .dead 10 0⟩], lbPolicy := .roundRobin,
      currentBackend := 0, options := ⟨2, 5, 1, some .roundRobin⟩ }
    rfl (Or.inl rfl) 0 ⟨s2l "b1", .dead 0 0⟩ 0 rfl rfl (by decide)

/-- Counterexample to C6 as stated: the permanently dead backend
(`retries_left = 0`, `lb_retries = 2`, interval `5`) observed at `now = 10`
ends as `Dead { since = 10, retries_left = 0 }`, not the claimed
`Dead { since = 10, retries_left = lb_retries }`. -/
theorem dead_retries_not_restored :
    (getNextBackend stC6 (.v4 1 2 3 4) 10).2.backends
      = [⟨s2l "b1", .dead 10 0⟩] ∧
    stC6.options.lbRetries = 2 ∧ (10 : Nat) ≥ 0 + 5 ∧
    (⟨s2l "b1", .dead 10 0⟩ : Backend) ≠ ⟨s2l "b1", .dead 10 2⟩ :=
  ⟨rfl, rfl, by omega, by decide⟩

end Cblt
